import Mathlib

/-!
Shallow embedding of the time/distance correlation and sample-windowing core
of `xrk.py` (AIM XRK telemetry reader).  Machine doubles are modelled as exact
rationals.  The external decoder DLL is out of scope and is modelled as
explicit data: the per-channel entry points become the fields of `XRKChannel`,
mirroring the `f_get_*` function-pointer attributes of the Python class.
Python runtime errors are modelled with `Option`: an uncaught IndexError or a
failed `assert` is `none`.
-/

namespace Xrk

/-- Models Python's builtin `round(q, 4)`: rounding to four decimal places
with half-to-even tie-breaking, on exact rationals. -/
def roundHalfEven (q : ℚ) : ℤ :=
  let f : ℤ := ⌊q⌋
  let r : ℚ := q - (f : ℚ)
  if r < 1/2 then f
  else if 1/2 < r then f + 1
  else if f % 2 = 0 then f else f + 1

/-- Python `round(q, 4)`. -/
def round4 (q : ℚ) : ℚ := (roundHalfEven (q * 10000) : ℚ) / 10000

/-- Python stdlib `bisect.bisect_left` body: `lo, hi = 0, len(a)`; while
`lo < hi`: `mid = (lo+hi)//2`; if `a[mid] < x` then `lo = mid+1` else
`hi = mid`; return `lo`.  The loop is run on explicit fuel; `len a` rounds of
fuel always suffice because `hi - lo` strictly decreases each round. -/
def bisectLoop (a : List ℚ) (x : ℚ) : Nat → Nat → Nat → Nat
  | 0, lo, _ => lo
  | fuel + 1, lo, hi =>
    if lo < hi then
      if a.getD ((lo + hi) / 2) 0 < x then bisectLoop a x fuel ((lo + hi) / 2 + 1) hi
      else bisectLoop a x fuel lo ((lo + hi) / 2)
    else lo

/-- Python `bisect.bisect_left(a, x)`. -/
def bisect_left (a : List ℚ) (x : ℚ) : Nat := bisectLoop a x a.length 0 a.length

/-- `XRK._tdlookup`: generic lookup over the timedistance pair of lists.
Indexing `cdata[-1]` on a non-empty list is its last element; `haystack[idx]`
with `idx < len` is safe; `haystack[idx+1]`, `cdata[idx+1]`, `cdata[idx]` in
the interpolation branch go through `List.get?` because Python raises an
uncaught IndexError there when the index is out of range.  The caught
ZeroDivisionError is the `frac = 1` branch. -/
def tdlookup (needle : ℚ) (haystack cdata : List ℚ) : Option ℚ :=
  let idx := bisect_left haystack needle
  if haystack.length ≤ idx then
    if cdata.isEmpty then none else some (cdata.getD (cdata.length - 1) 0)
  else if haystack.getD idx 0 = needle then cdata.get? idx
  else
    match haystack.get? (idx + 1) with
    | none => none
    | some h1 =>
      let h0 := haystack.getD idx 0
      let frac : ℚ := if h1 - h0 = 0 then 1 else (needle - h0) / (h1 - h0)
      match cdata.get? (idx + 1), cdata.get? idx with
      | some c1, some c0 => some (round4 (c0 + (c1 - c0) * frac))
      | _, _ => none

/-- Body of the `for i in range(1, len(seconds))` loop of `XRK.timedistance`:
starting at index `i` with running total `tot`, produce the next `k`
cumulative-distance entries
`tot + (seconds[i] - seconds[i-1]) * speeds[i]`, ... . -/
def tdDistAux (seconds speeds : List ℚ) : Nat → Nat → ℚ → List ℚ
  | 0, _, _ => []
  | k + 1, i, tot =>
    (tot + (seconds.getD i 0 - seconds.getD (i - 1) 0) * speeds.getD i 0) ::
      tdDistAux seconds speeds k (i + 1)
        (tot + (seconds.getD i 0 - seconds.getD (i - 1) 0) * speeds.getD i 0)

/-- The `distance` list built by `XRK.timedistance`: `distance = [0, ]`
followed by the loop entries for `i = 1 .. len(seconds)-1`. -/
def tdDistances (seconds speeds : List ℚ) : List ℚ :=
  0 :: tdDistAux seconds speeds (seconds.length - 1) 1 0

/-- `XRK.timedistance` applied to the already-fetched full-session
`(seconds, speeds)` arrays of the reference speed channel; the
`assert(len(seconds) == len(speeds))` is the guard. -/
def timedistance (seconds speeds : List ℚ) : Option (List ℚ × List ℚ) :=
  if seconds.length = speeds.length then some (seconds, tdDistances seconds speeds)
  else none

/-- The session state that `XRKChannel.samples` reads back from its owner
`XRK` object: the cached `timedistance` pair and the cached `lap_info`
table. -/
structure XRK where
  tdseconds : List ℚ
  tddistance : List ℚ
  lap_info : List (ℚ × ℚ)

/-- `XRK.timetodistance`: absolute time (s) to absolute distance (m). -/
def XRK.timetodistance (xk : XRK) (itime : ℚ) : Option ℚ :=
  tdlookup itime xk.tdseconds xk.tddistance

/-- `XRK.distancetotime`: absolute distance (m) to absolute time (s). -/
def XRK.distancetotime (xk : XRK) (idistance : ℚ) : Option ℚ :=
  tdlookup idistance xk.tddistance xk.tdseconds

/-- The `for i in range(len(lap_info))` scan of `XRK.bestlap`, as a fold with
strict less-than comparison on durations. -/
def bestlapFold (laps : List (ℚ × ℚ)) (n : Nat) : Nat :=
  (List.range n).foldl
    (fun b i => if (laps.getD i (0, 0)).2 < (laps.getD b (0, 0)).2 then i else b) 0

/-- `XRK.bestlap`. -/
def XRK.bestlap (xk : XRK) : Nat := bestlapFold xk.lap_info xk.lap_info.length

/-- One decoder-backed channel: the five `f_get_*` entry points of the Python
`XRKChannel`, with the DLL's behaviour for this channel given as data.  The
`count` fields are the integers returned by the count entry points, the `ok`
fields the success flags of the fetch entry points, and the `times`/`values`
fields the arrays the fetch entry points fill in (reading past their end
yields the `ctypes` zero initialisation, hence `getD _ 0` below). -/
structure XRKChannel where
  f_get_channel_samples_count : Int
  f_get_channel_samples_ok : Int
  f_get_channel_samples_times : List ℚ
  f_get_channel_samples_values : List ℚ
  f_get_lap_channel_samples_count : Nat → Int
  f_get_lap_channel_samples_ok : Nat → Int
  f_get_lap_channel_samples_times : Nat → List ℚ
  f_get_lap_channel_samples_values : Nat → List ℚ

/-- Python truthiness of the `lap: int = None` parameter, as tested by
`if lap:` in `XRKChannel.samples`: `None` and `0` are falsy, any other
integer is truthy. -/
def lapTruthy : Option Nat → Bool
  | none => false
  | some n => !(n == 0)

/-- Sequencing of the per-sample loop: the loop body may raise (when
`timetodistance` raises IndexError), and the first raise aborts the call. -/
def seqOpt : List (Option ℚ) → Option (List ℚ)
  | [] => some []
  | none :: _ => none
  | some a :: rest =>
    match seqOpt rest with
    | none => none
    | some l => some (a :: l)

/-- `XRKChannel.samples(lap, xtime, xabsolute)`.  Step for step:
count (session, overwritten by the lap count when `lap` is truthy), the
`assert sample_count > 0`, fetch, the `assert success > 0`, the per-sample
loop (milliseconds division for the session path, rounding, optional
time-to-distance conversion), and the lap-relative subtraction block. -/
def XRKChannel.samples (ch : XRKChannel) (xk : XRK) (lap : Option Nat)
    (xtime : Bool) (xabsolute : Bool) : Option (List ℚ × List ℚ) :=
  let sample_count : Int :=
    if lapTruthy lap then ch.f_get_lap_channel_samples_count (lap.getD 0)
    else ch.f_get_channel_samples_count
  if sample_count ≤ 0 then none
  else
    let ok : Int :=
      if lapTruthy lap then ch.f_get_lap_channel_samples_ok (lap.getD 0)
      else ch.f_get_channel_samples_ok
    if ok ≤ 0 then none
    else
      let ptimes : List ℚ :=
        if lapTruthy lap then ch.f_get_lap_channel_samples_times (lap.getD 0)
        else ch.f_get_channel_samples_times
      let pvalues : List ℚ :=
        if lapTruthy lap then ch.f_get_lap_channel_samples_values (lap.getD 0)
        else ch.f_get_channel_samples_values
      let n := sample_count.toNat
      match seqOpt ((List.range n).map (fun i =>
          let pt : ℚ :=
            if lapTruthy lap then round4 (ptimes.getD i 0)
            else round4 (ptimes.getD i 0 / 1000)
          if xtime then some pt else xk.timetodistance pt)) with
      | none => none
      | some xvalues =>
        if !xabsolute && lapTruthy lap then
          match xk.lap_info.get? (lap.getD 0) with
          | none => none
          | some li =>
            match (if xtime then some li.1 else xk.timetodistance li.1) with
            | none => none
            | some lap_start =>
              some (xvalues.map (fun xv => xv - lap_start),
                    (List.range n).map (fun i => pvalues.getD i 0))
        else some (xvalues, (List.range n).map (fun i => pvalues.getD i 0))

/-! Helper lemmas about list indexing. -/

theorem get?_eq_some_getD : ∀ (l : List ℚ) (n : Nat), n < l.length → l.get? n = some (l.getD n 0)
  | [], n, h => by simp at h
  | a :: l2, 0, _ => rfl
  | a :: l2, n + 1, h => get?_eq_some_getD l2 n (by simpa using h)

theorem get?_eq_none_of_le : ∀ (l : List ℚ) (n : Nat), l.length ≤ n → l.get? n = none
  | [], n, _ => rfl
  | a :: l2, 0, h => by simp at h
  | a :: l2, n + 1, h => get?_eq_none_of_le l2 n (by simpa using h)

/-- A `(· ≤ ·)` chain gives index-monotonicity of `getD`. -/
theorem chain_le_getD : ∀ (a : List ℚ), List.Chain' (· ≤ ·) a →
    ∀ i j, i ≤ j → j < a.length → a.getD i 0 ≤ a.getD j 0
  | [], _, i, j, _, hj => by simp at hj
  | q :: rest, ha, 0, 0, _, _ => le_refl _
  | q :: rest, ha, i + 1, 0, hij, _ => by omega
  | q :: rest, ha, i + 1, j + 1, hij, hj => by
      simpa using chain_le_getD rest ha.tail i j (by omega) (by simpa using hj)
  | q :: rest, ha, 0, j + 1, _, hj => by
      match rest, ha, hj with
      | r :: rest2, ha, hj =>
        have h1 : q ≤ r := (List.chain'_cons.mp ha).1
        have h2 : (r :: rest2).getD 0 0 ≤ (r :: rest2).getD j 0 :=
          chain_le_getD (r :: rest2) (List.chain'_cons.mp ha).2 0 j (Nat.zero_le _)
            (by simpa using hj)
        simp only [List.getD_cons_zero, List.getD_cons_succ] at h2 ⊢
        exact le_trans h1 h2

/-- A `(· < ·)` chain gives strict index-monotonicity of `getD`. -/
theorem chain_lt_getD : ∀ (a : List ℚ), List.Chain' (· < ·) a →
    ∀ i j, i < j → j < a.length → a.getD i 0 < a.getD j 0
  | [], _, i, j, _, hj => by simp at hj
  | q :: rest, ha, 0, 0, hij, _ => by omega
  | q :: rest, ha, i + 1, 0, hij, _ => by omega
  | q :: rest, ha, i + 1, j + 1, hij, hj => by
      simpa using chain_lt_getD rest ha.tail i j (by omega) (by simpa using hj)
  | q :: rest, ha, 0, j + 1, _, hj => by
      match rest, ha, hj with
      | r :: rest2, ha, hj =>
        have h1 : q < r := (List.chain'_cons.mp ha).1
        match j with
        | 0 => simpa using h1
        | j2 + 1 =>
          have h2 : (r :: rest2).getD 0 0 < (r :: rest2).getD (j2 + 1) 0 :=
            chain_lt_getD (r :: rest2) (List.chain'_cons.mp ha).2 0 (j2 + 1)
              (Nat.succ_pos _) (by simpa using hj)
          simp only [List.getD_cons_zero, List.getD_cons_succ] at h2 ⊢
          exact lt_trans h1 h2

/-- Weak index-monotonicity out of a strict chain. -/
theorem chain_lt_getD_le (a : List ℚ) (ha : List.Chain' (· < ·) a) :
    ∀ i j, i ≤ j → j < a.length → a.getD i 0 ≤ a.getD j 0 := by
  intro i j hij hj
  rcases Nat.lt_or_ge i j with h | h
  · exact le_of_lt (chain_lt_getD a ha i j h hj)
  · have : i = j := by omega
    subst this
    exact le_refl _

/-! The binary-search loop invariant behind `bisect_left`. -/

theorem bisectLoop_spec (a : List ℚ) (x : ℚ)
    (hmono : ∀ i j, i ≤ j → j < a.length → a.getD i 0 ≤ a.getD j 0) :
    ∀ fuel lo hi, lo ≤ hi → hi ≤ a.length → hi - lo ≤ fuel →
      (∀ k, k < lo → a.getD k 0 < x) →
      (∀ k, hi ≤ k → k < a.length → x ≤ a.getD k 0) →
      bisectLoop a x fuel lo hi ≤ a.length ∧
      (∀ k, k < bisectLoop a x fuel lo hi → a.getD k 0 < x) ∧
      (∀ k, bisectLoop a x fuel lo hi ≤ k → k < a.length → x ≤ a.getD k 0) := by
  intro fuel
  induction fuel with
  | zero =>
    intro lo hi hlh hha hf hlow hhigh
    have hEq : lo = hi := by omega
    subst hEq
    simp only [bisectLoop]
    exact ⟨by omega, hlow, fun k hk1 hk2 => hhigh k hk1 hk2⟩
  | succ f ih =>
    intro lo hi hlh hha hf hlow hhigh
    simp only [bisectLoop]
    by_cases h1 : lo < hi
    · rw [if_pos h1]
      have hmid1 : lo ≤ (lo + hi) / 2 := by omega
      have hmid2 : (lo + hi) / 2 < hi := by omega
      by_cases h2 : a.getD ((lo + hi) / 2) 0 < x
      · rw [if_pos h2]
        refine ih ((lo + hi) / 2 + 1) hi (by omega) hha (by omega) ?_ hhigh
        intro k hk
        exact lt_of_le_of_lt (hmono k ((lo + hi) / 2) (by omega) (by omega)) h2
      · rw [if_neg h2]
        refine ih lo ((lo + hi) / 2) hmid1 (by omega) (by omega) hlow ?_
        intro k hk1 hk2
        exact le_trans (not_lt.mp h2) (hmono ((lo + hi) / 2) k hk1 hk2)
    · rw [if_neg h1]
      have hEq : lo = hi := by omega
      subst hEq
      exact ⟨by omega, hlow, fun k hk1 hk2 => hhigh k hk1 hk2⟩

/-- The leftmost-bisection characterisation: all entries before the returned
index are strictly below the needle, all entries from it on are at least the
needle (for a sorted haystack). -/
theorem bisect_left_spec (a : List ℚ) (x : ℚ)
    (hmono : ∀ i j, i ≤ j → j < a.length → a.getD i 0 ≤ a.getD j 0) :
    bisect_left a x ≤ a.length ∧
    (∀ k, k < bisect_left a x → a.getD k 0 < x) ∧
    (∀ k, bisect_left a x ≤ k → k < a.length → x ≤ a.getD k 0) := by
  have h := bisectLoop_spec a x hmono a.length 0 a.length (Nat.zero_le _) (le_refl _)
    (by omega) (fun k hk => absurd hk (Nat.not_lt_zero k))
    (fun k h1 h2 => absurd (lt_of_le_of_lt h1 h2) (lt_irrefl _))
  exact h

/-! Branch-by-branch evaluation of `tdlookup`. -/

/-- Clamp branch: needle beyond every haystack entry returns `cdata[-1]`. -/
theorem tdlookup_clamp (h c : List ℚ) (x : ℚ)
    (hge : h.length ≤ bisect_left h x) (hcne : c ≠ []) :
    tdlookup x h c = some (c.getD (c.length - 1) 0) := by
  unfold tdlookup
  rw [if_pos hge]
  match c, hcne with
  | a :: c2, _ => rfl

/-- Exact-hit branch: the needle found at the bisection index is returned
verbatim from the codomain. -/
theorem tdlookup_exact_at (h c : List ℚ) (x : ℚ)
    (hlt : bisect_left h x < h.length) (heq : h.getD (bisect_left h x) 0 = x)
    (hlen : c.length = h.length) :
    tdlookup x h c = some (c.getD (bisect_left h x) 0) := by
  unfold tdlookup
  rw [if_neg (not_le.mpr hlt), if_pos heq]
  exact get?_eq_some_getD c _ (by omega)

/-- Interpolation branch with the forward bracket in range. -/
theorem tdlookup_interp (h c : List ℚ) (x : ℚ)
    (hlt : bisect_left h x < h.length) (hne2 : h.getD (bisect_left h x) 0 ≠ x)
    (hlt2 : bisect_left h x + 1 < h.length) (hlen : c.length = h.length) :
    tdlookup x h c = some (round4 (c.getD (bisect_left h x) 0 +
      (c.getD (bisect_left h x + 1) 0 - c.getD (bisect_left h x) 0) *
        (if h.getD (bisect_left h x + 1) 0 - h.getD (bisect_left h x) 0 = 0 then 1
         else (x - h.getD (bisect_left h x) 0) /
              (h.getD (bisect_left h x + 1) 0 - h.getD (bisect_left h x) 0)))) := by
  unfold tdlookup
  rw [if_neg (not_le.mpr hlt), if_neg hne2, get?_eq_some_getD h _ hlt2,
    get?_eq_some_getD c _ (by omega), get?_eq_some_getD c _ (by omega)]

/-- Interpolation branch falling off the end of the haystack: the Python
`haystack[idx+1]` access raises IndexError. -/
theorem tdlookup_oob (h c : List ℚ) (x : ℚ)
    (hlt : bisect_left h x < h.length) (hne2 : h.getD (bisect_left h x) 0 ≠ x)
    (hge : h.length ≤ bisect_left h x + 1) :
    tdlookup x h c = none := by
  unfold tdlookup
  rw [if_neg (not_le.mpr hlt), if_neg hne2, get?_eq_none_of_le h _ hge]

/-- An exact value in a sorted haystack is hit exactly by `bisect_left`. -/
theorem bisect_exact (a : List ℚ) (x : ℚ)
    (hmono : ∀ i j, i ≤ j → j < a.length → a.getD i 0 ≤ a.getD j 0)
    (i : Nat) (hi : i < a.length) (hx : a.getD i 0 = x) :
    bisect_left a x < a.length ∧ a.getD (bisect_left a x) 0 = x ∧
      bisect_left a x ≤ i := by
  obtain ⟨h1, h2, h3⟩ := bisect_left_spec a x hmono
  have hle : bisect_left a x ≤ i := by
    by_contra hc2
    push_neg at hc2
    have := h2 i hc2
    rw [hx] at this
    exact lt_irrefl x this
  have hlt : bisect_left a x < a.length := lt_of_le_of_lt hle hi
  have hge : x ≤ a.getD (bisect_left a x) 0 := h3 _ (le_refl _) hlt
  have hle2 : a.getD (bisect_left a x) 0 ≤ x := by
    have h4 := hmono (bisect_left a x) i hle hi
    rw [hx] at h4
    exact h4
  exact ⟨hlt, le_antisymm hle2 hge, hle⟩

/-! Structure of the cumulative-distance list built by `timedistance`. -/

theorem tdDistAux_length (t v : List ℚ) : ∀ k i tot, (tdDistAux t v k i tot).length = k
  | 0, _, _ => rfl
  | k + 1, i, tot => by
      simp only [tdDistAux, List.length_cons, tdDistAux_length t v k]

theorem tdDistAux_getD_zero (t v : List ℚ) :
    ∀ k i tot, 0 < k →
      (tdDistAux t v k i tot).getD 0 0 = tot + (t.getD i 0 - t.getD (i - 1) 0) * v.getD i 0
  | 0, _, _, hk => absurd hk (lt_irrefl 0)
  | k + 1, i, tot, _ => by simp [tdDistAux]

theorem tdDistAux_getD_succ (t v : List ℚ) :
    ∀ k j i tot, j + 1 < k →
      (tdDistAux t v k i tot).getD (j + 1) 0 =
        (tdDistAux t v k i tot).getD j 0 +
          (t.getD (i + j + 1) 0 - t.getD (i + j) 0) * v.getD (i + j + 1) 0
  | 0, j, i, tot, hk => absurd hk (by omega)
  | k + 1, 0, i, tot, hk => by
      have hk2 : 0 < k := by omega
      simp only [tdDistAux, List.getD_cons_succ, List.getD_cons_zero]
      rw [tdDistAux_getD_zero t v k (i + 1) _ hk2]
      simp only [Nat.add_sub_cancel, Nat.add_zero]
  | k + 1, j + 1, i, tot, hk => by
      simp only [tdDistAux, List.getD_cons_succ]
      rw [tdDistAux_getD_succ t v k j (i + 1) _ (by omega)]
      have e1 : i + 1 + j + 1 = i + (j + 1) + 1 := by omega
      have e2 : i + 1 + j = i + (j + 1) := by omega
      rw [e1, e2]

theorem tdDistances_length (t v : List ℚ) (h : t ≠ []) :
    (tdDistances t v).length = t.length := by
  have h1 := tdDistAux_length t v (t.length - 1) 1 0
  have h2 : 0 < t.length := List.length_pos.mpr h
  simp only [tdDistances, List.length_cons, h1]
  omega

theorem tdDistances_getD_zero (t v : List ℚ) : (tdDistances t v).getD 0 0 = 0 := rfl

/-- The loop recurrence: `d[i] = d[i-1] + (t[i] - t[i-1]) * v[i]`. -/
theorem tdDistances_recurrence (t v : List ℚ) :
    ∀ i, 1 ≤ i → i < t.length →
      (tdDistances t v).getD i 0 =
        (tdDistances t v).getD (i - 1) 0 +
          (t.getD i 0 - t.getD (i - 1) 0) * v.getD i 0 := by
  intro i h1 h2
  match i, h1 with
  | 1, _ =>
    have hk : 0 < t.length - 1 := by omega
    simp only [tdDistances, List.getD_cons_succ, List.getD_cons_zero]
    rw [tdDistAux_getD_zero t v _ 1 0 hk]
    norm_num
  | j + 2, _ =>
    simp only [tdDistances, List.getD_cons_succ]
    rw [tdDistAux_getD_succ t v (t.length - 1) j 1 0 (by omega)]
    have e1 : 1 + j + 1 = j + 2 := by omega
    have e2 : 1 + j = j + 1 := by omega
    have e3 : j + 2 - 1 = j + 1 := by omega
    rw [e1, e2, e3, List.getD_cons_succ]

/-! The linear scan behind `bestlap`. -/

theorem bestlapFold_spec (laps : List (ℚ × ℚ)) : ∀ n,
    (bestlapFold laps n < n ∨ bestlapFold laps n = 0) ∧
    (∀ j, j < n → (laps.getD (bestlapFold laps n) (0, 0)).2 ≤ (laps.getD j (0, 0)).2) ∧
    (∀ j, j < bestlapFold laps n →
      (laps.getD (bestlapFold laps n) (0, 0)).2 < (laps.getD j (0, 0)).2) := by
  intro n
  induction n with
  | zero =>
    refine ⟨Or.inr rfl, ?_, ?_⟩
    · intro j hj
      omega
    · intro j hj
      have : bestlapFold laps 0 = 0 := rfl
      omega
  | succ n ih =>
    obtain ⟨ihb, ihmin, ihfirst⟩ := ih
    have hstep : bestlapFold laps (n + 1) =
        if (laps.getD n (0, 0)).2 < (laps.getD (bestlapFold laps n) (0, 0)).2 then n
        else bestlapFold laps n := by
      simp [bestlapFold, List.range_succ]
    by_cases hlt : (laps.getD n (0, 0)).2 < (laps.getD (bestlapFold laps n) (0, 0)).2
    · rw [hstep, if_pos hlt]
      refine ⟨Or.inl (by omega), ?_, ?_⟩
      · intro j hj
        rcases Nat.lt_succ_iff_lt_or_eq.mp hj with hj2 | hj2
        · exact le_trans (le_of_lt hlt) (ihmin j hj2)
        · subst hj2
          exact le_refl _
      · intro j hj
        exact lt_of_lt_of_le hlt (ihmin j hj)
    · rw [hstep, if_neg hlt]
      refine ⟨?_, ?_, ihfirst⟩
      · rcases ihb with hb | hb
        · exact Or.inl (by omega)
        · exact Or.inr hb
      · intro j hj
        rcases Nat.lt_succ_iff_lt_or_eq.mp hj with hj2 | hj2
        · exact ihmin j hj2
        · subst hj2
          exact not_lt.mp hlt

/-- Sequencing a loop whose body always succeeds collects the per-index
values. -/
theorem seqOpt_map_some (f : Nat → ℚ) :
    ∀ l : List Nat, seqOpt (l.map (fun i => some (f i))) = some (l.map f)
  | [] => rfl
  | i :: rest => by
      simp only [List.map_cons, seqOpt, seqOpt_map_some f rest]

/-! Claim theorems. -/

/-- Claim C10: for every channel, session state and combination of the
`xtime` and `xabsolute` flags, `samples` with `lap = 0` returns exactly the
same result as `samples` with `lap = None`: `if lap:` is false for both, so
the whole-session count, fetch, milliseconds division and no-subtraction
paths are taken identically. -/
theorem C10_lap_zero_equals_none (ch : XRKChannel) (xk : XRK)
    (xtime xabsolute : Bool) :
    ch.samples xk (some 0) xtime xabsolute = ch.samples xk none xtime xabsolute := rfl

/-- Claim C4: `timedistance` passes its length guard on equal-length
non-empty input and returns the input time list together with the
cumulative-distance list, which has the same length, starts at 0, and obeys
`d[i] = d[i-1] + (t[i] - t[i-1]) * v[i]` — the later sample's speed weights
the interval (rectangle rule). -/
theorem C4_timedistance_construction (t v : List ℚ) (hne : t ≠ [])
    (hlen : v.length = t.length) :
    timedistance t v = some (t, tdDistances t v) ∧
    (tdDistances t v).length = t.length ∧
    (tdDistances t v).getD 0 0 = 0 ∧
    (∀ i, 1 ≤ i → i < t.length →
      (tdDistances t v).getD i 0 =
        (tdDistances t v).getD (i - 1) 0 +
          (t.getD i 0 - t.getD (i - 1) 0) * v.getD i 0) := by
  refine ⟨?_, tdDistances_length t v hne, tdDistances_getD_zero t v,
    tdDistances_recurrence t v⟩
  unfold timedistance
  rw [if_pos hlen.symm]

/-- Claim C4 witness at `t = [0, 1, 3]`, `v = [2, 4, 5]`. -/
theorem C4_timedistance_witness :
    (tdDistances [0, 1, 3] [2, 4, 5]).getD 2 0 =
      (tdDistances [0, 1, 3] [2, 4, 5]).getD (2 - 1) 0 +
        (([0, 1, 3] : List ℚ).getD 2 0 - ([0, 1, 3] : List ℚ).getD (2 - 1) 0) *
          ([2, 4, 5] : List ℚ).getD 2 0 :=
  (C4_timedistance_construction [0, 1, 3] [2, 4, 5] (by simp)
    (by simp)).2.2.2 2 (by omega) (by simp)

/-- Claim C8: when the time sequence is non-decreasing, the cumulative
distance is non-decreasing at every position whose speed sample is
non-negative; no clamping is applied, and the concrete conjunct shows a
negative speed sample making the distance locally decrease. -/
theorem C8_distance_monotone (t v : List ℚ) (hch : List.Chain' (· ≤ ·) t)
    (hlen : v.length = t.length) :
    (∀ i, 1 ≤ i → i < t.length → 0 ≤ v.getD i 0 →
      (tdDistances t v).getD (i - 1) 0 ≤ (tdDistances t v).getD i 0) ∧
    (tdDistances [0, 1] [1, -1]).getD 1 0 < (tdDistances [0, 1] [1, -1]).getD 0 0 := by
  constructor
  · intro i h1 h2 hv
    rw [tdDistances_recurrence t v i h1 h2]
    have hdt : t.getD (i - 1) 0 ≤ t.getD i 0 := chain_le_getD t hch (i - 1) i (by omega) h2
    have hp : 0 ≤ (t.getD i 0 - t.getD (i - 1) 0) * v.getD i 0 :=
      mul_nonneg (sub_nonneg.mpr hdt) hv
    linarith
  · norm_num [tdDistances, tdDistAux]

/-- Claim C8 witness at `t = [0, 2]`, `v = [1, 3]`, position 1. -/
theorem C8_distance_monotone_witness :
    (tdDistances [0, 2] [1, 3]).getD (1 - 1) 0 ≤ (tdDistances [0, 2] [1, 3]).getD 1 0 :=
  (C8_distance_monotone [0, 2] [1, 3] (by norm_num [List.chain'_cons])
    (by simp)).1 1 (by omega) (by simp) (by simp)

/-- Claim C9: for a non-empty lap table the best-lap scan returns an
in-range index whose duration is minimal, and every earlier index has a
strictly greater duration (so ties go to the first minimum); on the lap
table `[(0, 60), (60, 58.5)]` (58.5 = 117/2) it returns index 1. -/
theorem C9_bestlap_min (xk : XRK) (hne : xk.lap_info ≠ []) :
    (xk.bestlap < xk.lap_info.length ∧
     (∀ j, j < xk.lap_info.length →
       (xk.lap_info.getD xk.bestlap (0, 0)).2 ≤ (xk.lap_info.getD j (0, 0)).2) ∧
     (∀ j, j < xk.bestlap →
       (xk.lap_info.getD xk.bestlap (0, 0)).2 < (xk.lap_info.getD j (0, 0)).2)) ∧
    XRK.bestlap ⟨[], [], [(0, 60), (60, 117/2)]⟩ = 1 := by
  have h := bestlapFold_spec xk.lap_info xk.lap_info.length
  have hl : 0 < xk.lap_info.length := List.length_pos.mpr hne
  refine ⟨⟨?_, h.2.1, h.2.2⟩, ?_⟩
  · show bestlapFold xk.lap_info xk.lap_info.length < xk.lap_info.length
    rcases h.1 with hb | hb
    · exact hb
    · rw [hb]
      exact hl
  · norm_num [XRK.bestlap, bestlapFold, List.range_succ]

/-- Claim C9 witness at the lap table `[(0, 5), (3, 5)]`. -/
theorem C9_bestlap_witness :
    XRK.bestlap ⟨[], [], [(0, 5), (3, 5)]⟩ < 2 :=
  (C9_bestlap_min ⟨[], [], [(0, 5), (3, 5)]⟩ (by simp)).1.1

/-- Claim C1, evaluated at the failing input `lap = 0`: with a decoder whose
session data (count 2, millisecond times `[1000, 2000]`, values `[7, 8]`)
differs from its lap-0 data (count 1, times `[3]`, values `[9]`), `samples`
with `lap = 0` takes the whole-session count and fetch (and divides by 1000),
not the lap-scoped ones; a nonzero lap does take the lap-scoped path; a
non-positive decoder count aborts the call. -/
theorem C1_lap_zero_uses_session_path :
    XRKChannel.samples
        ⟨2, 1, [1000, 2000], [7, 8], fun _ => 1, fun _ => 1, fun _ => [3], fun _ => [9]⟩
        ⟨[], [], []⟩ (some 0) true true = some ([1, 2], [7, 8]) ∧
    XRKChannel.samples
        ⟨2, 1, [1000, 2000], [7, 8], fun _ => 1, fun _ => 1, fun _ => [3], fun _ => [9]⟩
        ⟨[], [], []⟩ (some 0) true true ≠ some ([3], [9]) ∧
    XRKChannel.samples
        ⟨2, 1, [1000, 2000], [7, 8], fun _ => 1, fun _ => 1, fun _ => [3], fun _ => [9]⟩
        ⟨[], [], []⟩ (some 1) true true = some ([3], [9]) ∧
    XRKChannel.samples
        ⟨0, 1, [1000, 2000], [7, 8], fun _ => 1, fun _ => 1, fun _ => [3], fun _ => [9]⟩
        ⟨[], [], []⟩ none true true = none := by
  refine ⟨?_, ?_, ?_, ?_⟩ <;>
    norm_num [XRKChannel.samples, lapTruthy, seqOpt, round4, roundHalfEven,
      List.range_succ] <;>
    simp [List.range_succ]

/-- Claim C6, evaluated at the failing input `lap = 0, xabsolute = False`:
with lap table `[(5, 60), (65, 58)]` the lap-0 call performs no subtraction
of the lap-0 start 5 (it returns the absolute whole-session values), while
the lap-1 call does subtract the lap-1 start 65; with no lap, no subtraction
is performed either. -/
theorem C6_lap_relative_subtraction :
    XRKChannel.samples
        ⟨2, 1, [1000, 2000], [7, 8], (fun m => if m = 1 then 2 else 1), (fun _ => 1),
         (fun m => if m = 1 then [65, 100] else [3]),
         (fun m => if m = 1 then [9, 10] else [4])⟩
        ⟨[], [], [(5, 60), (65, 58)]⟩ (some 0) true false = some ([1, 2], [7, 8]) ∧
    XRKChannel.samples
        ⟨2, 1, [1000, 2000], [7, 8], (fun m => if m = 1 then 2 else 1), (fun _ => 1),
         (fun m => if m = 1 then [65, 100] else [3]),
         (fun m => if m = 1 then [9, 10] else [4])⟩
        ⟨[], [], [(5, 60), (65, 58)]⟩ (some 0) true false ≠ some ([-4, -3], [7, 8]) ∧
    XRKChannel.samples
        ⟨2, 1, [1000, 2000], [7, 8], (fun m => if m = 1 then 2 else 1), (fun _ => 1),
         (fun m => if m = 1 then [65, 100] else [3]),
         (fun m => if m = 1 then [9, 10] else [4])⟩
        ⟨[], [], [(5, 60), (65, 58)]⟩ (some 1) true false = some ([0, 35], [9, 10]) ∧
    XRKChannel.samples
        ⟨2, 1, [1000, 2000], [7, 8], (fun m => if m = 1 then 2 else 1), (fun _ => 1),
         (fun m => if m = 1 then [65, 100] else [3]),
         (fun m => if m = 1 then [9, 10] else [4])⟩
        ⟨[], [], [(5, 60), (65, 58)]⟩ none true false = some ([1, 2], [7, 8]) := by
  refine ⟨?_, ?_, ?_, ?_⟩ <;>
    norm_num [XRKChannel.samples, lapTruthy, seqOpt, round4, roundHalfEven,
      List.range_succ] <;>
    simp [List.range_succ]

/-- Claim C2 counterexample: on the Time-Distance Index built from times
`[0, 1, 2]` and speeds `[10, 10, 10]`, the needle `3/2` lies strictly
between the last two haystack entries, the bisection index is the last
position, and the `haystack[idx+1]` access raises IndexError — the lookup
does not return a value. -/
theorem C2_counterexample :
    timedistance [0, 1, 2] [10, 10, 10] = some ([0, 1, 2], [0, 10, 20]) ∧
    XRK.timetodistance ⟨[0, 1, 2], [0, 10, 20], []⟩ (3/2) = none := by
  constructor
  · norm_num [timedistance, tdDistances, tdDistAux]
  · norm_num [XRK.timetodistance, tdlookup, bisect_left, bisectLoop]

/-- Claim C3 counterexample: with zero speed samples the distance column of
the Time-Distance Index has duplicates (`[0, 0, 0]`), the time value `2` is
exactly an entry of the time array, yet the round trip returns `0`, the time
of the leftmost duplicate, not `2`. -/
theorem C3_counterexample :
    timedistance [0, 1, 2] [5, 0, 0] = some ([0, 1, 2], [0, 0, 0]) ∧
    ([0, 1, 2] : List ℚ).getD 2 0 = 2 ∧
    (XRK.timetodistance ⟨[0, 1, 2], [0, 0, 0], []⟩ 2).bind
      (XRK.distancetotime ⟨[0, 1, 2], [0, 0, 0], []⟩) = some 0 ∧
    (0 : ℚ) ≠ 2 := by
  refine ⟨?_, by norm_num, ?_, by norm_num⟩
  · norm_num [timedistance, tdDistances, tdDistAux]
  · norm_num [XRK.timetodistance, XRK.distancetotime, tdlookup, bisect_left,
      bisectLoop, Option.bind]

/-- Claim C5 counterexample: for the haystack `[0, 1]` and needle `1/2` the
bisection index is 1 (in range) and the entry there is not the needle, so
the claim promises the interpolated value, but the lookup instead fails on
the out-of-range `haystack[2]` access and returns nothing. -/
theorem C5_counterexample :
    bisect_left [0, 1] (1/2) = 1 ∧
    ([0, 1] : List ℚ).getD 1 0 ≠ 1/2 ∧
    1 < ([0, 1] : List ℚ).length ∧
    tdlookup (1/2) [0, 1] [4, 6] = none := by
  refine ⟨?_, by norm_num, by norm_num, ?_⟩
  · norm_num [bisect_left, bisectLoop]
  · norm_num [tdlookup, bisect_left, bisectLoop]

/-- Claim C2 (amended): over a sorted non-empty haystack with an
equal-length codomain, the generic lookup fails (raises IndexError) exactly
when the needle is strictly greater than every haystack entry but the last
and strictly less than the last entry (for a singleton haystack: strictly
less than its only entry); everywhere else — clamping past the end, exact
hits, in-range interpolation including the ratio-1 zero-width fallback and
needles below the first entry — it returns a value. -/
theorem C2_lookup_error_characterization (h c : List ℚ) (x : ℚ)
    (hch : List.Chain' (· ≤ ·) h) (hne : h ≠ []) (hlen : c.length = h.length) :
    tdlookup x h c = none ↔
      ((∀ k, k < h.length - 1 → h.getD k 0 < x) ∧ x < h.getD (h.length - 1) 0) := by
  have hmono := chain_le_getD h hch
  obtain ⟨h1, h2, h3⟩ := bisect_left_spec h x hmono
  have hn : 0 < h.length := List.length_pos.mpr hne
  have hcne : c ≠ [] := by
    intro hc0
    rw [hc0] at hlen
    simp at hlen
    omega
  constructor
  · intro hnone
    by_cases hc1 : h.length ≤ bisect_left h x
    · rw [tdlookup_clamp h c x hc1 hcne] at hnone
      exact absurd hnone (by simp)
    · push_neg at hc1
      by_cases hc2 : h.getD (bisect_left h x) 0 = x
      · rw [tdlookup_exact_at h c x hc1 hc2 hlen] at hnone
        exact absurd hnone (by simp)
      · by_cases hc3 : bisect_left h x + 1 < h.length
        · rw [tdlookup_interp h c x hc1 hc2 hc3 hlen] at hnone
          exact absurd hnone (by simp)
        · push_neg at hc3
          have hidx : bisect_left h x = h.length - 1 := by omega
          refine ⟨fun k hk => h2 k (by omega), ?_⟩
          have hge := h3 (bisect_left h x) (le_refl _) hc1
          have hne3 : x ≠ h.getD (bisect_left h x) 0 := fun he => hc2 he.symm
          have hlt3 : x < h.getD (bisect_left h x) 0 := lt_of_le_of_ne hge hne3
          rw [hidx] at hlt3
          exact hlt3
  · rintro ⟨hall, hlast⟩
    have hidxge : h.length - 1 ≤ bisect_left h x := by
      by_contra hcc
      push_neg at hcc
      have hx1 := h3 (bisect_left h x) (le_refl _) (by omega)
      have hx2 := hall (bisect_left h x) hcc
      linarith
    have hidxne : bisect_left h x ≠ h.length := by
      intro he
      have := h2 (h.length - 1) (by omega)
      linarith
    have hidx : bisect_left h x = h.length - 1 := by omega
    have hne2 : h.getD (bisect_left h x) 0 ≠ x := by
      rw [hidx]
      exact ne_of_gt hlast
    exact tdlookup_oob h c x (by omega) hne2 (by omega)

/-- Claim C2 witness: haystack `[0, 1, 3]`, needle `2` strictly between the
last two entries, to which the characterisation applies. -/
theorem C2_lookup_witness :
    tdlookup 2 [0, 1, 3] [7, 8, 9] = none := by
  refine (C2_lookup_error_characterization [0, 1, 3] [7, 8, 9] 2
    (by norm_num [List.chain'_cons]) (by simp) (by simp)).mpr ⟨?_, by norm_num⟩
  intro k hk
  simp only [List.length_cons, List.length_nil] at hk
  interval_cases k <;> norm_num

/-- Claim C5 (amended): the lookup computes the leftmost bisection index
(smallest index whose entry is at least the needle); past-the-end needles
return the last codomain value unchanged; exact hits return the codomain
entry verbatim; otherwise, provided the forward bracket `idx + 1` is still
in range, it returns `codomain[idx] + (codomain[idx+1] - codomain[idx]) *
ratio` rounded to four decimals, with `ratio = 1` when the bracket has zero
width — when `idx` is the last position and the hit is inexact the lookup
instead fails on the `haystack[idx+1]` access. -/
theorem C5_lookup_algorithm (h c : List ℚ) (x : ℚ)
    (hch : List.Chain' (· ≤ ·) h) (hne : h ≠ []) (hlen : c.length = h.length) :
    (bisect_left h x ≤ h.length ∧
     (∀ k, k < bisect_left h x → h.getD k 0 < x) ∧
     (bisect_left h x < h.length → x ≤ h.getD (bisect_left h x) 0)) ∧
    (h.length ≤ bisect_left h x → tdlookup x h c = some (c.getD (c.length - 1) 0)) ∧
    (bisect_left h x < h.length → h.getD (bisect_left h x) 0 = x →
      tdlookup x h c = some (c.getD (bisect_left h x) 0)) ∧
    (bisect_left h x < h.length → h.getD (bisect_left h x) 0 ≠ x →
      bisect_left h x + 1 < h.length →
      tdlookup x h c = some (round4 (c.getD (bisect_left h x) 0 +
        (c.getD (bisect_left h x + 1) 0 - c.getD (bisect_left h x) 0) *
          (if h.getD (bisect_left h x + 1) 0 - h.getD (bisect_left h x) 0 = 0 then 1
           else (x - h.getD (bisect_left h x) 0) /
                (h.getD (bisect_left h x + 1) 0 - h.getD (bisect_left h x) 0))))) := by
  have hmono := chain_le_getD h hch
  obtain ⟨h1, h2, h3⟩ := bisect_left_spec h x hmono
  have hn : 0 < h.length := List.length_pos.mpr hne
  have hcne : c ≠ [] := by
    intro hc0
    rw [hc0] at hlen
    simp at hlen
    omega
  exact ⟨⟨h1, h2, fun hlt => h3 _ (le_refl _) hlt⟩,
    fun hge => tdlookup_clamp h c x hge hcne,
    fun hlt heq => tdlookup_exact_at h c x hlt heq hlen,
    fun hlt hne2 hlt2 => tdlookup_interp h c x hlt hne2 hlt2 hlen⟩

/-- Claim C5 witness: haystack `[0, 2, 4]`, codomain `[1, 3, 5]`, needle `1`
takes the in-range interpolation branch and evaluates to `2`. -/
theorem C5_lookup_witness :
    tdlookup 1 [0, 2, 4] [1, 3, 5] = some 2 := by
  have hb : bisect_left [0, 2, 4] 1 = 1 := by norm_num [bisect_left, bisectLoop]
  have h := (C5_lookup_algorithm [0, 2, 4] [1, 3, 5] 1
    (by norm_num [List.chain'_cons]) (by simp) (by simp)).2.2.2
  have h2 := h (by rw [hb]; norm_num) (by rw [hb]; norm_num) (by rw [hb]; norm_num)
  rw [h2, hb]
  norm_num [round4, roundHalfEven]

/-- Claim C3 (amended): when the Time-Distance Index's time array is
non-decreasing and its distance array is strictly increasing, every value
`t` that is exactly an entry of the time array round-trips exactly:
`distancetotime (timetodistance t) = t`, because both legs take the
exact-hit branch and the strictly increasing distance column makes the
reverse bisection land on the same index. -/
theorem C3_roundtrip_exact (ts ds : List ℚ) (li : List (ℚ × ℚ)) (t : ℚ) (i : Nat)
    (hts : List.Chain' (· ≤ ·) ts) (hds : List.Chain' (· < ·) ds)
    (hlen : ds.length = ts.length) (hi : i < ts.length) (ht : ts.getD i 0 = t) :
    (XRK.timetodistance ⟨ts, ds, li⟩ t).bind (XRK.distancetotime ⟨ts, ds, li⟩) =
      some t := by
  have hmono := chain_le_getD ts hts
  have hmonod := chain_lt_getD_le ds hds
  obtain ⟨hlt, heq, hle⟩ := bisect_exact ts t hmono i hi ht
  have hfwd : XRK.timetodistance ⟨ts, ds, li⟩ t =
      some (ds.getD (bisect_left ts t) 0) :=
    tdlookup_exact_at ts ds t hlt heq hlen
  have hiltd : bisect_left ts t < ds.length := by omega
  obtain ⟨hlt2, heq2, hle2⟩ :=
    bisect_exact ds (ds.getD (bisect_left ts t) 0) hmonod (bisect_left ts t) hiltd rfl
  have hjeq : bisect_left ds (ds.getD (bisect_left ts t) 0) = bisect_left ts t := by
    rcases Nat.lt_or_ge (bisect_left ds (ds.getD (bisect_left ts t) 0))
        (bisect_left ts t) with hlt3 | hge3
    · exfalso
      have hcontra := chain_lt_getD ds hds
        (bisect_left ds (ds.getD (bisect_left ts t) 0)) (bisect_left ts t) hlt3 hiltd
      rw [heq2] at hcontra
      exact lt_irrefl _ hcontra
    · omega
  have hrev : XRK.distancetotime ⟨ts, ds, li⟩ (ds.getD (bisect_left ts t) 0) =
      some (ts.getD (bisect_left ds (ds.getD (bisect_left ts t) 0)) 0) :=
    tdlookup_exact_at ds ts (ds.getD (bisect_left ts t) 0) hlt2 heq2 hlen.symm
  rw [hfwd, Option.some_bind, hrev, hjeq, heq]

/-- Claim C3 witness: index `([0, 1, 2], [0, 3, 7])`, `t = 1`. -/
theorem C3_roundtrip_witness :
    (XRK.timetodistance ⟨[0, 1, 2], [0, 3, 7], []⟩ 1).bind
      (XRK.distancetotime ⟨[0, 1, 2], [0, 3, 7], []⟩) = some 1 :=
  C3_roundtrip_exact [0, 1, 2] [0, 3, 7] [] 1 1
    (by norm_num [List.chain'_cons]) (by norm_num [List.chain'_cons])
    (by simp) (by simp) (by simp)

/-- Claim C7: in `samples`, every whole-session raw timestamp is divided by
1000 and then rounded to four decimals, while every lap-scoped raw
timestamp is only rounded and never divided: with `xtime = xabsolute = true`
the returned x-values are exactly the per-index images of the fetched raw
times under `round4 (· / 1000)` on the session path and under `round4` on
the lap path, and y-values are the fetched raw values. -/
theorem C7_units_normalization (ch : XRKChannel) (xk : XRK) (lap : Option Nat)
    (hc : 0 < (if lapTruthy lap then ch.f_get_lap_channel_samples_count (lap.getD 0)
               else ch.f_get_channel_samples_count))
    (hok : 0 < (if lapTruthy lap then ch.f_get_lap_channel_samples_ok (lap.getD 0)
                else ch.f_get_channel_samples_ok)) :
    ch.samples xk lap true true =
      some (((List.range
                (if lapTruthy lap then ch.f_get_lap_channel_samples_count (lap.getD 0)
                 else ch.f_get_channel_samples_count).toNat).map (fun i =>
              if lapTruthy lap then
                round4 ((ch.f_get_lap_channel_samples_times (lap.getD 0)).getD i 0)
              else round4 ((ch.f_get_channel_samples_times).getD i 0 / 1000))),
            ((List.range
                (if lapTruthy lap then ch.f_get_lap_channel_samples_count (lap.getD 0)
                 else ch.f_get_channel_samples_count).toNat).map (fun i =>
              (if lapTruthy lap then ch.f_get_lap_channel_samples_values (lap.getD 0)
               else ch.f_get_channel_samples_values).getD i 0))) := by
  cases hL : lapTruthy lap with
  | false =>
    rw [hL] at hc hok
    simp only [Bool.false_eq_true, if_false] at hc hok ⊢
    unfold XRKChannel.samples
    simp only [hL, Bool.false_eq_true, if_false, if_true]
    rw [if_neg (by omega : ¬ ch.f_get_channel_samples_count ≤ 0),
      if_neg (by omega : ¬ ch.f_get_channel_samples_ok ≤ 0)]
    rw [seqOpt_map_some
      (fun i => round4 ((ch.f_get_channel_samples_times).getD i 0 / 1000))]
    simp
  | true =>
    rw [hL] at hc hok
    simp only [if_true] at hc hok ⊢
    unfold XRKChannel.samples
    simp only [hL, if_true]
    rw [if_neg (by omega : ¬ ch.f_get_lap_channel_samples_count (lap.getD 0) ≤ 0),
      if_neg (by omega : ¬ ch.f_get_lap_channel_samples_ok (lap.getD 0) ≤ 0)]
    rw [seqOpt_map_some
      (fun i => round4 ((ch.f_get_lap_channel_samples_times (lap.getD 0)).getD i 0))]
    simp

/-- Claim C7 witness: a session-path call (lap `None`, count 1, raw time 500
milliseconds) returns `round4 (500/1000) = 1/2`; a lap-path call (lap 1,
raw time 500) returns `round4 500 = 500`, undivided. -/
theorem C7_units_witness :
    XRKChannel.samples
        ⟨1, 1, [500], [3], fun _ => 1, fun _ => 1, fun _ => [500], fun _ => [4]⟩
        ⟨[], [], []⟩ none true true = some ([1/2], [3]) ∧
    XRKChannel.samples
        ⟨1, 1, [500], [3], fun _ => 1, fun _ => 1, fun _ => [500], fun _ => [4]⟩
        ⟨[], [], []⟩ (some 1) true true = some ([500], [4]) := by
  constructor
  · have h := C7_units_normalization
      ⟨1, 1, [500], [3], fun _ => 1, fun _ => 1, fun _ => [500], fun _ => [4]⟩
      ⟨[], [], []⟩ none (by norm_num [lapTruthy]) (by norm_num [lapTruthy])
    rw [h]
    norm_num [lapTruthy, round4, roundHalfEven]
    simp [List.range_succ]
    norm_num [Int.fract]
  · have h := C7_units_normalization
      ⟨1, 1, [500], [3], fun _ => 1, fun _ => 1, fun _ => [500], fun _ => [4]⟩
      ⟨[], [], []⟩ (some 1) (by norm_num [lapTruthy]) (by norm_num [lapTruthy])
    rw [h]
    norm_num [lapTruthy, round4, roundHalfEven]
    simp [List.range_succ]
    norm_num [Int.fract]

end Xrk
